import Mathlib

/-!
Shallow embedding of the fault-tolerance core of the polaris-go excerpt:
the composite circuit-breaker health checker (rule selection, probe
dispatch, instance registry) and the status-change log, together with
theorems checking the specification's claims against this embedding.

Machine integers: Go `uint32` counters are modelled as `Nat` with an
explicit `% 2^32` where the code increments them; `int64` millisecond
timestamps are modelled as `Int` (their arithmetic never wraps for any
value the code can produce in its lifetime, and the code does signed
subtraction on them).
-/

namespace Polaris

/-! ## Go string helpers

Go's `strings.ToLower`, `strings.HasPrefix`, `strings.HasSuffix` and
`strings.Compare`, modelled on the character list underlying a Lean
`String` so that they compute by kernel reduction. -/

/-- Go `strings.HasPrefix s pre`. -/
def goHasPrefix (s pre : String) : Bool :=
  pre.data.isPrefixOf s.data

/-- Go `strings.HasSuffix s suf`. -/
def goHasSuffix (s suf : String) : Bool :=
  suf.data.reverse.isPrefixOf s.data.reverse

/-- Go `strings.ToLower` (ASCII case folding, which is all the code feeds it). -/
def goToLower (s : String) : String :=
  ⟨s.data.map Char.toLower⟩

/-- Go `strings.Compare`: -1, 0 or 1 by lexicographic byte order. -/
def goCompare (a b : String) : Int :=
  if a = b then 0 else if a < b then -1 else 1

/-- Go `copy(dst, src)` on slices: overwrites the first
`min (length dst) (length src)` elements of `dst` and leaves the rest. -/
def goCopy {α : Type} (dst src : List α) : List α :=
  src.take dst.length ++ dst.drop src.length

/-! ## Protocol enum (`fault_tolerance.FaultDetectRule_Protocol`) -/

/-- The `FaultDetectRule_Protocol` proto enum. -/
inductive FDProtocol where
  | UNKNOWN
  | HTTP
  | TCP
  | UDP
deriving DecidableEq, Repr, Inhabited

/-- The proto enum's `String()` method (enum constant name). -/
def FDProtocol.protoString : FDProtocol → String
  | .UNKNOWN => "UNKNOWN"
  | .HTTP => "HTTP"
  | .TCP => "TCP"
  | .UDP => "UDP"

/-- `parseProtocol` from the health checker: classify an instance's
advertised protocol string; `http` / `http/...` / `.../http` is HTTP,
similarly UDP then TCP, anything else UNKNOWN. -/
def parseProtocol (s : String) : FDProtocol :=
  let s := goToLower s
  if decide (s = "http") || goHasPrefix s "http/" || goHasSuffix s "/http" then .HTTP
  else if decide (s = "udp") || goHasPrefix s "udp/" || goHasSuffix s "/udp" then .UDP
  else if decide (s = "tcp") || goHasPrefix s "tcp/" || goHasSuffix s "/tcp" then .TCP
  else .UNKNOWN

/-! ## Circuit-breaker status and the status-change node builder
(`createCircuitBreakNode` in the serviceinfo status log) -/

/-- `model.Status`: status of a circuit breaker. -/
inductive CBState where
  | Open
  | HalfOpen
  | Close
deriving DecidableEq, Repr

/-- The part of `model.CircuitBreakerStatus` read by `createCircuitBreakNode`:
`GetStatus()` and `GetCircuitBreaker()` (the breaker's name). -/
structure CircuitBreakerStatus where
  status : CBState
  circuitBreaker : String
deriving DecidableEq, Repr

/-- `monitorpb.StatusChange` values used by the status log. -/
inductive StatusChange where
  | CloseToOpen
  | HalfOpenToOpen
  | OpenToHalfOpen
  | HalfOpenToClose
deriving DecidableEq, Repr

/-- `circuitBreakNode`: a circuit-break transition node for the log. -/
structure CircuitBreakNode where
  status : StatusChange
  reason : String
deriving DecidableEq, Repr

/-- `createCircuitBreakNode(pre, current)`: build a transition node from the
previous status (`none` models Go's nil pointer) and the current one, or
return the consistency error for an invalid transition. -/
def createCircuitBreakNode (pre : Option CircuitBreakerStatus)
    (current : CircuitBreakerStatus) : Except String CircuitBreakNode :=
  let reason := current.circuitBreaker
  match current.status with
  | .Open =>
    match pre with
    | none => .ok ⟨.CloseToOpen, reason⟩
    | some p =>
      if p.status = .HalfOpen then .ok ⟨.HalfOpenToOpen, reason⟩
      else if p.status = .Close then .ok ⟨.CloseToOpen, reason⟩
      else .error "invalid pre cb status for the current status Open"
  | .HalfOpen =>
    match pre with
    | some p =>
      if p.status = .Open then .ok ⟨.OpenToHalfOpen, reason⟩
      else .error "invalid pre cb status for the current status Open"
    | none => .error "invalid pre cb status for the current status Open"
  | .Close =>
    match pre with
    | some p =>
      if p.status = .HalfOpen then .ok ⟨.HalfOpenToClose, reason⟩
      else .error "invalid pre cb status for the current status Open"
    | none => .error "invalid pre cb status for the current status Open"

/-- The transition table of the specification: which `(pre, current)` pairs
produce a status-change node, and which node. -/
def specTransition : Option CBState → CBState → Option StatusChange
  | none, .Open => some .CloseToOpen
  | some .Close, .Open => some .CloseToOpen
  | some .HalfOpen, .Open => some .HalfOpenToOpen
  | some .Open, .HalfOpen => some .OpenToHalfOpen
  | some .HalfOpen, .Close => some .HalfOpenToClose
  | _, _ => none

/-! ## Instance registry of a `ResourceHealthChecker` -/

/-- `model.ServiceKey`: namespace and service.  (`namespace` is a Lean
keyword, hence the underscore.) -/
structure ServiceKey where
  namespace_ : String
  service : String
deriving DecidableEq, Repr

/-- `model.Node`: host and port of an instance (`Port` is a `uint32`). -/
structure Node where
  host : String
  port : Nat
deriving DecidableEq, Repr

/-- Modelled from the spec: `model.Node.String()` is not in the excerpt; the
spec makes `node{host, port}` the identity key inside a checker, rendered in
the usual `host:port` form that the log lines also use. -/
def Node.str (n : Node) : String :=
  n.host ++ ":" ++ toString n.port

/-- `model.InstanceResource`: the service key, the node, and the advertised
protocol string of the instance. -/
structure InstanceResource where
  svcKey : ServiceKey
  node : Node
  protocol : String
deriving DecidableEq, Repr

/-- `ProtocolInstance`: a probe target tracked by a checker.  `checkSuccess`
is the atomic `int32` flag (1 iff the last probe succeeded);
`lastReportMilli` is the atomic `int64` timestamp. -/
structure ProtocolInstance where
  protocol : FDProtocol
  insRes : InstanceResource
  lastReportMilli : Int
  checkSuccess : Int
deriving DecidableEq, Repr

/-- `getLastReportMilli`: atomic load of the report timestamp. -/
def ProtocolInstance.getLastReportMilli (p : ProtocolInstance) : Int :=
  p.lastReportMilli

/-- `isCheckSuccess`: the flag equals 1. -/
def ProtocolInstance.isCheckSuccess (p : ProtocolInstance) : Bool :=
  p.checkSuccess == 1

/-- `setCheckResult`: store 1 or 0 into the flag. -/
def ProtocolInstance.setCheckResult (p : ProtocolInstance) (v : Bool) :
    ProtocolInstance :=
  if v then { p with checkSuccess := 1 } else { p with checkSuccess := 0 }

/-- `doReport`: store the current time into `lastReportMilli`. -/
def ProtocolInstance.doReport (p : ProtocolInstance) (now : Int) :
    ProtocolInstance :=
  { p with lastReportMilli := now }

/-- The checker's `instances map[string]*ProtocolInstance`, as an association
list keyed by `Node.String()`.  Go map keys are unique; theorems that need
this carry a `Nodup` hypothesis on the keys. -/
abbrev Registry := List (String × ProtocolInstance)

/-- `addInstance(res, record)` at time `now`: if the node key is absent,
insert a fresh `ProtocolInstance` (protocol parsed from the advertised
string, `lastReportMilli = now`, flag zero); if present and `record` is set,
only `doReport` the saved entry. -/
def addInstance (m : Registry) (res : InstanceResource) (record : Bool)
    (now : Int) : Registry :=
  match m.lookup res.node.str with
  | none =>
      m ++ [(res.node.str,
        { protocol := parseProtocol res.protocol
          insRes := res
          lastReportMilli := now
          checkSuccess := 0 })]
  | some _ =>
      if record then
        m.map (fun kv =>
          if kv.1 = res.node.str then (kv.1, kv.2.doReport now) else kv)
      else m

/-- N calls of `addInstance(res, record=true)` at the given times, in order. -/
def addInstanceCalls (m : Registry) (res : InstanceResource) (ts : List Int) :
    Registry :=
  ts.foldl (fun acc t => addInstance acc res true t) m

/-- `cleanInstances` at time `curTimeMill` with TTL `expireIntervalMill`:
under the read lock, collect the keys of entries whose last probe failed
(`isCheckSuccess` false) and whose last report is at least the TTL ago;
then, under the write lock, delete those keys. -/
def cleanInstances (m : Registry) (curTimeMill expireIntervalMill : Int) :
    Registry :=
  let waitDel := (m.filter (fun kv =>
    !kv.2.isCheckSuccess &&
      decide (curTimeMill - kv.2.getLastReportMilli ≥ expireIntervalMill))).map
    Prod.fst
  waitDel.foldl (fun acc k => acc.filter (fun kv => kv.1 != k)) m

/-! ## Fault-detect rules and rule matching -/

/-- `fault_tolerance.Level` of a resource. -/
inductive Level where
  | SERVICE
  | METHOD
  | INSTANCE
deriving DecidableEq, Repr

/-- `apimodel.MatchString.MatchStringType`: exact or regex matching. -/
inductive MatchType where
  | EXACT
  | REGEX
deriving DecidableEq, Repr

/-- `apimodel.MatchString`: matching mode and value (the nested
`GetValue().GetValue()` accessor collapses to `value` here). -/
structure MatchStringV where
  mtype : MatchType
  value : String
deriving DecidableEq, Repr

/-- The `targetService` selector of a fault-detect rule. -/
structure TargetService where
  namespace_ : String
  service : String
  method : MatchStringV
deriving DecidableEq, Repr

/-- `fault_tolerance.FaultDetectRule`: the fields the health checker reads
(the protocol-specific probe payload is consumed opaquely by the plugin and
is not represented). -/
structure FaultDetectRule where
  name : String
  targetService : TargetService
  protocol : FDProtocol
  port : Nat
  interval : Nat
deriving DecidableEq, Repr

/-- `fault_tolerance.FaultDetector`: the rule collection pushed by the
control plane. -/
structure FaultDetector where
  rules : List FaultDetectRule
deriving DecidableEq, Repr

/-- The part of `model.Resource` the checker reads: `GetLevel()`,
`GetService()`, and (for method resources) the method name. -/
structure Resource where
  level : Level
  service : ServiceKey
  method : String
deriving DecidableEq, Repr

/-- Modelled from the spec: `match.IsMatchAll` is not in the excerpt; a
target field is match-all iff it is the wildcard `*` (§3: each field "may be
a literal, a regex, or the wildcard `*`"). -/
def IsMatchAll (v : String) : Bool :=
  v == "*"

/-- Modelled from the spec: `match.MatchService` is not in the excerpt; per
§4.A it is "literal equality or wildcard, per field" on namespace and
service. -/
def MatchService (svc : ServiceKey) (ns s : String) : Bool :=
  (IsMatchAll ns || ns == svc.namespace_) && (IsMatchAll s || s == svc.service)

/-- Modelled from the spec: `match.MatchString` is not in the excerpt; per
§4.A a method selector matches by "literal, wildcard, or regex"; the regex
engine is abstracted by the injected `regexMatch` predicate (mirroring the
injected `regexFunction` of the checker). -/
def MatchStringFn (m : String) (v : MatchStringV)
    (regexMatch : String → String → Bool) : Bool :=
  if IsMatchAll v.value then true
  else
    match v.mtype with
    | .EXACT => v.value == m
    | .REGEX => regexMatch v.value m

/-- `matchMethod`: a non-METHOD resource trivially matches; a METHOD
resource matches through `match.MatchString` on its method name. -/
def matchMethod (regexMatch : String → String → Bool) (res : Resource)
    (val : MatchStringV) : Bool :=
  if res.level ≠ .METHOD then true
  else MatchStringFn res.method val regexMatch

/-- `compareStringValue`: match-all ties with match-all, is ordered after
any literal, and literals compare lexicographically. -/
def compareStringValue (v1 v2 : String) : Int :=
  if IsMatchAll v1 && IsMatchAll v2 then 0
  else if IsMatchAll v1 then 1
  else if IsMatchAll v2 then -1
  else goCompare v1 v2

/-- `compareService`: namespace comparison first, then service. -/
def compareService (ns1 svc1 ns2 svc2 : String) : Int :=
  let v := compareStringValue ns1 ns2
  if v ≠ 0 then v else compareStringValue svc1 svc2

/-- The `Less` closure passed to `sort.Slice` in `sortFaultDetectRules`:
compare target namespace/service, then target method. -/
def ruleLess (rule1 rule2 : FaultDetectRule) : Bool :=
  let v := compareService rule1.targetService.namespace_
    rule1.targetService.service rule2.targetService.namespace_
    rule2.targetService.service
  if v ≠ 0 then decide (v < 0)
  else decide (compareStringValue rule1.targetService.method.value
    rule2.targetService.method.value < 0)

/-- Insert `x` into a list assumed ordered by `le`. -/
def insertSorted {α : Type} (le : α → α → Bool) (x : α) : List α → List α
  | [] => [x]
  | y :: ys => if le x y then x :: y :: ys else y :: insertSorted le x ys

/-- Insertion sort: the contract of Go's `sort.Slice` (a permutation of the
input ordered by the `Less` closure; `le x y` here is `¬ Less y x`). -/
def sortBy {α : Type} (le : α → α → Bool) : List α → List α
  | [] => []
  | x :: xs => insertSorted le x (sortBy le xs)

/-- `sortFaultDetectRules(srcRules)` as written in the source:
`rules := make([]*FaultDetectRule, 0, len(srcRules))` creates a slice of
LENGTH 0 (capacity `len(srcRules)`), and `copy(rules, srcRules)` copies
`min(len(rules), len(srcRules)) = 0` elements, so the sort runs on an empty
slice and the function returns an empty slice for every input. -/
def sortFaultDetectRules (srcRules : List FaultDetectRule) :
    List FaultDetectRule :=
  let rules : List FaultDetectRule := []
  let rules := goCopy rules srcRules
  sortBy (fun r1 r2 => !ruleLess r2 r1) rules

/-- The map insertion step of `selectFaultDetectRules`: record the rule for
its protocol only if no rule was recorded for that protocol yet. -/
def insertIfAbsent (m : List (String × FaultDetectRule))
    (rule : FaultDetectRule) : List (String × FaultDetectRule) :=
  match m.lookup rule.protocol.protoString with
  | some _ => m
  | none => m ++ [(rule.protocol.protoString, rule)]

/-- `selectFaultDetectRules(res, faultDetector)`: walk the sorted rules and,
for each rule whose target matches the resource (service fields always;
method by regex/literal for METHOD resources, match-all required otherwise),
record the first match per protocol. -/
def selectFaultDetectRules (regexMatch : String → String → Bool)
    (res : Resource) (faultDetector : FaultDetector) :
    List (String × FaultDetectRule) :=
  let sortedRules := sortFaultDetectRules faultDetector.rules
  sortedRules.foldl
    (fun matchRule rule =>
      if !MatchService res.service rule.targetService.namespace_
          rule.targetService.service then matchRule
      else if res.level = .METHOD then
        if !matchMethod regexMatch res rule.targetService.method then matchRule
        else insertIfAbsent matchRule rule
      else if !IsMatchAll rule.targetService.method.value then matchRule
      else insertIfAbsent matchRule rule)
    []

/-- What `sortFaultDetectRules` was evidently meant to do (and what the spec
describes): sort all of `srcRules`; the zero-length `make` plus `copy`
drops them instead. -/
def sortFaultDetectRulesIntended (srcRules : List FaultDetectRule) :
    List FaultDetectRule :=
  sortBy (fun r1 r2 => !ruleLess r2 r1) srcRules

/-- `selectFaultDetectRules` over the intended sort, for comparison. -/
def selectFaultDetectRulesIntended (regexMatch : String → String → Bool)
    (res : Resource) (faultDetector : FaultDetector) :
    List (String × FaultDetectRule) :=
  let sortedRules := sortFaultDetectRulesIntended faultDetector.rules
  sortedRules.foldl
    (fun matchRule rule =>
      if !MatchService res.service rule.targetService.namespace_
          rule.targetService.service then matchRule
      else if res.level = .METHOD then
        if !matchMethod regexMatch res rule.targetService.method then matchRule
        else insertIfAbsent matchRule rule
      else if !IsMatchAll rule.targetService.method.value then matchRule
      else insertIfAbsent matchRule rule)
    []

/-! ## Probe dispatch (`checkResource` / `doCheck`) -/

/-- `model.RetStatus` values carried by a detect result. -/
inductive RetStatus where
  | RetSuccess
  | RetFail
  | RetTimeout
deriving DecidableEq, Repr

/-- The result of a successful `DetectInstance` call: `GetCode()`,
`GetDelay()`, `GetRetStatus()`. -/
structure DetectResult where
  code : Nat
  delay : Nat
  retStatus : RetStatus
deriving DecidableEq, Repr

/-- The probe target built by `pb.NewInstanceInProto`: host, port, and the
service key. -/
structure Instance where
  host : String
  port : Nat
  svcKey : ServiceKey
deriving DecidableEq, Repr

/-- A health-check plugin: `DetectInstance(instance) → result | error`
(spec §1: protocol probe implementations are a pluggable capability). -/
def HealthChecker : Type :=
  Instance → Except String DetectResult

/-- The plugin registry `healthCheckers map[string]HealthChecker`, keyed by
lower-case protocol name. -/
abbrev HealthCheckers := List (String × HealthChecker)

/-- `defaultServiceKey`: replace a nil service key by the empty one. -/
def defaultServiceKey (v : Option ServiceKey) : ServiceKey :=
  match v with
  | none => ⟨"", ""⟩
  | some v => v

/-- Build the probe target for an instance resource, as `checkResource`
does: `Host` and `Port` from the instance's own node. -/
def newInstanceInProto (res : InstanceResource) : Instance :=
  ⟨res.node.host, res.node.port, defaultServiceKey (some res.svcKey)⟩

/-- `model.ResourceStat`: one outcome reported to the circuit breaker. -/
structure ResourceStat where
  resource : Resource
  retCode : Nat
  delay : Nat
  retStatus : RetStatus
deriving DecidableEq, Repr

/-- `doCheck(ins, protocol, rule)`: look the plugin up by the lower-cased
protocol name (absent plugin: log and return false), call `DetectInstance`
(error: return false), otherwise build a `ResourceStat`, report it to the
circuit breaker and return whether the probe succeeded.  The second
component records the `circuitBreaker.Report` call: `none` means `Report`
was not invoked. -/
def doCheck (healthCheckers : HealthCheckers) (resource : Resource)
    (ins : Instance) (protocol : FDProtocol) (_rule : FaultDetectRule) :
    Bool × Option ResourceStat :=
  match healthCheckers.lookup (goToLower protocol.protoString) with
  | none => (false, none)
  | some checker =>
      match checker ins with
      | .error _ => (false, none)
      | .ok ret =>
          let stat : ResourceStat := ⟨resource, ret.code, ret.delay, ret.retStatus⟩
          (ret.retStatus == RetStatus.RetSuccess, some stat)

/-- One probe dispatch of `checkResource`: the target built for the
instance and the protocol passed on to `doCheck` (the instance's own). -/
structure ProbeCall where
  ins : Instance
  protocol : FDProtocol
deriving DecidableEq, Repr

/-- `checkResource(protocol, rule)` over the registry snapshot: the sequence
of probe dispatches of one tick.  With `rule.port > 0` every entry is probed
(deduplicated through the `hosts` set, which is keyed by the registry key),
with no protocol filter; with `rule.port = 0` exactly the entries whose
protocol is UNKNOWN or equal to the rule's protocol are probed.  In both
branches the target carries the instance's own host and port, and each
probed instance's `checkSuccess` flag is then set to the `doCheck` result
(which does not influence which probes run). -/
def checkResource (protocol : FDProtocol) (rule : FaultDetectRule)
    (instances : Registry) : List ProbeCall :=
  if rule.port > 0 then
    (instances.foldl
      (fun (acc : List String × List ProbeCall) kv =>
        if acc.1.contains kv.1 then acc
        else (acc.1 ++ [kv.1],
          acc.2 ++ [⟨newInstanceInProto kv.2.insRes, kv.2.protocol⟩]))
      ([], [])).2
  else
    instances.foldl
      (fun calls kv =>
        if kv.2.protocol == FDProtocol.UNKNOWN || kv.2.protocol == protocol then
          calls ++ [⟨newInstanceInProto kv.2.insRes, kv.2.protocol⟩]
        else calls)
      []

/-- A concrete instance resource for witnesses. -/
def sampleRes : InstanceResource :=
  ⟨⟨"prod", "payments"⟩, ⟨"10.0.0.1", 9000⟩, "tcp"⟩

/-- A concrete registry for witnesses: an expired failing instance and a
long-silent successful one. -/
def sampleRegistry : Registry :=
  [("a:1", ⟨.TCP, ⟨⟨"ns", "svc"⟩, ⟨"a", 1⟩, "tcp"⟩, 100, 0⟩),
   ("b:2", ⟨.HTTP, ⟨⟨"ns", "svc"⟩, ⟨"b", 2⟩, "http"⟩, 100, 1⟩)]

/-- A fully wildcard TCP rule. -/
def ruleWildcardTCP : FaultDetectRule :=
  ⟨"wildcard", ⟨"*", "*", ⟨.EXACT, "*"⟩⟩, .TCP, 0, 10⟩

/-- A TCP rule literally targeting `prod/payments`. -/
def ruleLiteralTCP : FaultDetectRule :=
  ⟨"literal", ⟨"prod", "payments", ⟨.EXACT, "*"⟩⟩, .TCP, 0, 10⟩

/-- The service resource `prod/payments`. -/
def resProdPayments : Resource :=
  ⟨.SERVICE, ⟨"prod", "payments"⟩, ""⟩

/-- A TCP rule with the port override `port = 8080`. -/
def rulePort8080 : FaultDetectRule :=
  ⟨"port-override", ⟨"prod", "payments", ⟨.EXACT, "*"⟩⟩, .TCP, 8080, 10⟩

/-- A registry holding one TCP instance at `10.0.0.1:9000`. -/
def regOneInstance : Registry :=
  [(sampleRes.node.str, ⟨.TCP, sampleRes, 0, 0⟩)]

/-- A registry holding one HTTP instance at `10.0.0.2:80`. -/
def regHTTPInstance : Registry :=
  [("10.0.0.2:80", ⟨.HTTP, ⟨⟨"prod", "payments"⟩, ⟨"10.0.0.2", 80⟩, "http"⟩, 0, 0⟩)]

/-! ## Status change log (`statusList` in the serviceinfo reporter)

The Go structure is a singly-linked list with a sentinel head, a tail
pointer, a `uint32` element count, a `uint32` sequence counter and a
spin lock.  Sequentially, the chain hanging off the sentinel is a list
in append order; the model keeps that list together with the two
counters (the lock serialises the operations and has no sequential
content). -/

/-- `statusNode`: one change node. `changeData interface{}` is modelled by a
type parameter; `changeTime` by a `Nat` timestamp. -/
structure StatusNode (α : Type) where
  changeSeq : Nat
  changeTime : Nat
  changeData : α
deriving DecidableEq, Repr

/-- `statusList` state: the chain after the sentinel head (in append order),
the `count` field and the `seq` counter (both `uint32`). -/
structure StatusList (α : Type) where
  nodes : List (StatusNode α)
  count : Nat
  seq : Nat
deriving DecidableEq, Repr

/-- `newStatusList`: empty chain (head = tail = sentinel), zero counters. -/
def newStatusList {α : Type} : StatusList α :=
  ⟨[], 0, 0⟩

/-- `addStatus(data, currentTime)`: `currentSeq = atomic.AddUint32(&seq, 1)`,
link a node carrying `currentSeq` at the tail, increment `count`. -/
def StatusList.addStatus {α : Type} (s : StatusList α) (data : α)
    (currentTime : Nat) : StatusList α :=
  let currentSeq := (s.seq + 1) % 2 ^ 32
  let newNode : StatusNode α := ⟨currentSeq, currentTime, data⟩
  { nodes := s.nodes ++ [newNode]
    count := (s.count + 1) % 2 ^ 32
    seq := currentSeq }

/-- `addDeleteStatus(data, currentTime)`: same as `addStatus`, then
`atomic.CompareAndSwapUint32(&seq, currentSeq, 0)` — sequentially `seq`
still equals `currentSeq` at that point, so the swap resets it to 0. -/
def StatusList.addDeleteStatus {α : Type} (s : StatusList α) (data : α)
    (currentTime : Nat) : StatusList α :=
  let currentSeq := (s.seq + 1) % 2 ^ 32
  let newNode : StatusNode α := ⟨currentSeq, currentTime, data⟩
  let linked : StatusList α :=
    { nodes := s.nodes ++ [newNode]
      count := (s.count + 1) % 2 ^ 32
      seq := currentSeq }
  if linked.seq = currentSeq then { linked with seq := 0 } else linked

/-- `getNodes()`: detach the chain (`n = head.next`, `tail = head`,
`head.next = nil`), report the current `seq` and `count`, zero `count`,
leave `seq` untouched.  Returns `((nodes, currentSeq, currentCount),
state afterwards)`. -/
def StatusList.getNodes {α : Type} (s : StatusList α) :
    (List (StatusNode α) × Nat × Nat) × StatusList α :=
  ((s.nodes, s.seq, s.count), { nodes := [], count := 0, seq := s.seq })

/-- One append-style operation on a `statusList`. -/
inductive AppendOp (α : Type) where
  | add (data : α) (time : Nat)
  | addDel (data : α) (time : Nat)
deriving DecidableEq, Repr

/-- The payload carried by an append operation. -/
def AppendOp.data {α : Type} : AppendOp α → α
  | .add d _ => d
  | .addDel d _ => d

/-- Run one append operation. -/
def StatusList.applyOp {α : Type} (s : StatusList α) : AppendOp α → StatusList α
  | .add d t => s.addStatus d t
  | .addDel d t => s.addDeleteStatus d t

/-- Run a sequence of append operations in order. -/
def StatusList.applyOps {α : Type} (s : StatusList α) (ops : List (AppendOp α)) :
    StatusList α :=
  ops.foldl StatusList.applyOp s

end Polaris

namespace Polaris

/-- C9: `parseProtocol "grpc/http"` returns HTTP (suffix match on `/http`),
and `parseProtocol "unknown"` returns UNKNOWN (no protocol token matches). -/
theorem parseProtocol_examples :
    parseProtocol "grpc/http" = FDProtocol.HTTP ∧
    parseProtocol "unknown" = FDProtocol.UNKNOWN := by
  decide

/-- C3: `createCircuitBreakNode` produces exactly the nodes of the valid
transition table — CloseToOpen for (nil|Closed)→Open, HalfOpenToOpen for
HalfOpen→Open, OpenToHalfOpen for Open→HalfOpen, HalfOpenToClose for
HalfOpen→Closed — and returns an error, producing no node, for every other
(pre, current) pair. -/
theorem createCircuitBreakNode_matches_transition_table :
    ∀ (pre : Option CircuitBreakerStatus) (current : CircuitBreakerStatus),
      match specTransition (pre.map (·.status)) current.status with
      | some change =>
          createCircuitBreakNode pre current = .ok ⟨change, current.circuitBreaker⟩
      | none => ∃ msg, createCircuitBreakNode pre current = .error msg := by
  rintro (_ | ⟨⟨ps, pn⟩⟩) ⟨cs, cn⟩ <;> cases cs <;>
    first
      | exact rfl
      | exact ⟨_, rfl⟩
      | (cases ps <;> first | exact rfl | exact ⟨_, rfl⟩)

theorem StatusList.applyOp_nodes_data {α : Type} (s : StatusList α) (op : AppendOp α) :
    (s.applyOp op).nodes.map (·.changeData) =
      s.nodes.map (·.changeData) ++ [op.data] := by
  cases op <;>
    simp [StatusList.applyOp, StatusList.addStatus, StatusList.addDeleteStatus,
      AppendOp.data]

theorem StatusList.applyOps_nodes_data {α : Type} (ops : List (AppendOp α)) :
    ∀ s : StatusList α, (s.applyOps ops).nodes.map (·.changeData) =
      s.nodes.map (·.changeData) ++ ops.map AppendOp.data := by
  induction ops with
  | nil => intro s; simp [StatusList.applyOps]
  | cons op ops ih =>
    intro s
    have h1 : s.applyOps (op :: ops) = (s.applyOp op).applyOps ops := by
      simp [StatusList.applyOps]
    rw [h1, ih, StatusList.applyOp_nodes_data]
    simp

theorem StatusList.addDeleteStatus_seq {α : Type} (s : StatusList α) (d : α) (t : Nat) :
    (s.addDeleteStatus d t).seq = 0 := by
  simp [StatusList.addDeleteStatus]

/-- C4: starting from a drained list, after a sequence of appends whose last
operation is `addDeleteStatus`, a drain returns all appended payloads in
append order and reports `currentSeq = 0`, and an `addStatus` performed after
that `addDeleteStatus` starts a new stream whose first node has seq 1. -/
theorem statusList_appendDeleted_then_drain (α : Type) (s : StatusList α)
    (ops rest : List (AppendOp α)) (dl : α) (tl : Nat) (d : α) (t : Nat)
    (hnodes : s.nodes = [])
    (hops : ops = rest ++ [AppendOp.addDel dl tl]) :
    (s.applyOps ops).getNodes.1.1.map (·.changeData) = ops.map AppendOp.data ∧
    (s.applyOps ops).getNodes.1.2.1 = 0 ∧
    ((s.applyOps ops).getNodes.2.addStatus d t).nodes.map (·.changeSeq) = [1] := by
  have hdata := StatusList.applyOps_nodes_data ops s
  have hseq : (s.applyOps ops).seq = 0 := by
    subst hops
    have : s.applyOps (rest ++ [AppendOp.addDel dl tl]) =
        (s.applyOps rest).applyOp (.addDel dl tl) := by
      simp [StatusList.applyOps]
    rw [this]
    exact StatusList.addDeleteStatus_seq _ _ _
  refine ⟨?_, ?_, ?_⟩
  · simpa [StatusList.getNodes, hnodes] using hdata
  · simpa [StatusList.getNodes] using hseq
  · simp [StatusList.getNodes, StatusList.addStatus, hseq]

/-- Witness for C4 at a concrete run: two appends, the second a delete. -/
theorem statusList_appendDeleted_then_drain_witness :
    ((newStatusList.applyOps
        [AppendOp.add 7 1, AppendOp.addDel 9 2]).getNodes.1.1.map (·.changeData) =
      ([AppendOp.add 7 1, AppendOp.addDel 9 2] : List (AppendOp Nat)).map AppendOp.data) ∧
    ((newStatusList (α := Nat)).applyOps
        [AppendOp.add 7 1, AppendOp.addDel 9 2]).getNodes.1.2.1 = 0 ∧
    (((newStatusList (α := Nat)).applyOps
        [AppendOp.add 7 1, AppendOp.addDel 9 2]).getNodes.2.addStatus 5 3).nodes.map
        (·.changeSeq) = [1] :=
  statusList_appendDeleted_then_drain Nat newStatusList
    [AppendOp.add 7 1, AppendOp.addDel 9 2] [AppendOp.add 7 1] 9 2 5 3 rfl rfl

theorem lookup_none_key_beq_false {β : Type} (m : List (String × β)) (k : String)
    (h : m.lookup k = none) : ∀ kv ∈ m, (kv.1 == k) = false := by
  induction m with
  | nil => intro kv hkv; cases hkv
  | cons a tl ih =>
    obtain ⟨k', v'⟩ := a
    intro kv hkv
    rw [List.lookup] at h
    by_cases hk : k = k'
    · subst hk; simp at h
    · have hb : (k == k') = false := beq_eq_false_iff_ne.mpr hk
      simp only [hb] at h
      rcases List.mem_cons.mp hkv with rfl | hkv
      · exact beq_eq_false_iff_ne.mpr (Ne.symm hk)
      · exact ih h kv hkv

theorem lookup_append_of_none {β : Type} (m l : List (String × β)) (k : String)
    (h : m.lookup k = none) : (m ++ l).lookup k = l.lookup k := by
  induction m with
  | nil => simp
  | cons a tl ih =>
    obtain ⟨k', v'⟩ := a
    rw [List.lookup] at h
    by_cases hk : k = k'
    · subst hk; simp at h
    · have hb : (k == k') = false := beq_eq_false_iff_ne.mpr hk
      simp only [hb] at h
      rw [List.cons_append, List.lookup]
      simp only [hb]
      exact ih h

theorem foldl_delete_eq_filter (ks : List String) :
    ∀ m : Registry,
      ks.foldl (fun acc k => acc.filter (fun kv => kv.1 != k)) m =
        m.filter (fun kv => decide (kv.1 ∉ ks)) := by
  induction ks with
  | nil => intro m; simp
  | cons k ks ih =>
    intro m
    rw [List.foldl_cons, ih, List.filter_filter]
    apply List.filter_congr
    intro kv _
    by_cases h1 : kv.1 = k <;> by_cases h2 : kv.1 ∈ ks <;>
      simp [h1, h2]

/-- C6: `cleanInstances` keeps exactly the entries that are not
(failed-last-probe and silent for at least the TTL); equivalently it deletes
exactly the expired failures, and entries with `checkSuccess` true are never
deleted no matter how old their last report is. -/
theorem cleanInstances_expires_exactly_silent_failures (m : Registry)
    (now ttl : Int) (hnd : (m.map Prod.fst).Nodup) :
    cleanInstances m now ttl =
      m.filter (fun kv =>
        kv.2.isCheckSuccess || !decide (now - kv.2.getLastReportMilli ≥ ttl)) ∧
    (cleanInstances m now ttl).filter (fun kv => kv.2.isCheckSuccess) =
      m.filter (fun kv => kv.2.isCheckSuccess) := by
  have hmain : cleanInstances m now ttl =
      m.filter (fun kv =>
        kv.2.isCheckSuccess || !decide (now - kv.2.getLastReportMilli ≥ ttl)) := by
    rw [cleanInstances, foldl_delete_eq_filter]
    apply List.filter_congr
    intro kv hkv
    by_cases hdel : kv.1 ∈ (m.filter (fun kv =>
        !kv.2.isCheckSuccess &&
          decide (now - kv.2.getLastReportMilli ≥ ttl))).map Prod.fst
    · rcases List.mem_map.mp hdel with ⟨kv', hkv', hfst⟩
      rcases List.mem_filter.mp hkv' with ⟨hkv'm, hcond⟩
      have hkveq : kv' = kv :=
        List.inj_on_of_nodup_map hnd hkv'm hkv hfst
      rw [hkveq] at hcond
      simp only [Bool.and_eq_true, Bool.not_eq_true'] at hcond
      simp [hdel, hcond.1, hcond.2]
    · by_cases hsucc : kv.2.isCheckSuccess
      · simp [hdel, hsucc]
      · by_cases hage : now - kv.2.getLastReportMilli ≥ ttl
        · exact absurd (List.mem_map.mpr ⟨kv, List.mem_filter.mpr ⟨hkv, by
            simp [hsucc, hage]⟩, rfl⟩) hdel
        · simp [hdel, hsucc, hage]
  refine ⟨hmain, ?_⟩
  rw [hmain, List.filter_filter]
  apply List.filter_congr
  intro kv _
  by_cases hsucc : kv.2.isCheckSuccess <;> simp [hsucc]

/-- Witness for C6 on the concrete two-entry registry. -/
theorem cleanInstances_witness :
    cleanInstances sampleRegistry 1000 500 =
      sampleRegistry.filter (fun kv =>
        kv.2.isCheckSuccess || !decide (1000 - kv.2.getLastReportMilli ≥ 500)) ∧
    (cleanInstances sampleRegistry 1000 500).filter
        (fun kv => kv.2.isCheckSuccess) =
      sampleRegistry.filter (fun kv => kv.2.isCheckSuccess) :=
  cleanInstances_expires_exactly_silent_failures sampleRegistry 1000 500
    (by decide)

theorem lookup_eq_none_of_key_beq_false {β : Type} (m : List (String × β))
    (k : String) (hm : ∀ kv ∈ m, (kv.1 == k) = false) : m.lookup k = none := by
  induction m with
  | nil => rfl
  | cons a tl ih =>
    obtain ⟨k', v'⟩ := a
    rw [List.lookup]
    have hb : (k' == k) = false := hm (k', v') (by simp)
    have hb' : (k == k') = false := by
      rcases beq_eq_false_iff_ne.mp hb with hne
      exact beq_eq_false_iff_ne.mpr (Ne.symm hne)
    simp only [hb']
    exact ih (fun kv hkv => hm kv (List.mem_cons_of_mem _ hkv))

theorem addInstance_absent (m : Registry) (res : InstanceResource) (now : Int)
    (h : m.lookup res.node.str = none) :
    addInstance m res true now =
      m ++ [(res.node.str, ⟨parseProtocol res.protocol, res, now, 0⟩)] := by
  simp [addInstance, h]

theorem addInstance_present (m : Registry) (res : InstanceResource) (now : Int)
    (p : ProtocolInstance)
    (hm : ∀ kv ∈ m, (kv.1 == res.node.str) = false) :
    addInstance (m ++ [(res.node.str, p)]) res true now =
      m ++ [(res.node.str, p.doReport now)] := by
  have hmn : m.lookup res.node.str = none := lookup_eq_none_of_key_beq_false m _ hm
  have hl : (m ++ [(res.node.str, p)]).lookup res.node.str = some p := by
    rw [lookup_append_of_none _ _ _ hmn]
    simp [List.lookup]
  rw [addInstance]
  rw [hl]
  simp only [if_pos trivial, List.map_append]
  congr 1
  · have hid : ∀ kv ∈ m,
        (if kv.1 = res.node.str then (kv.1, kv.2.doReport now) else kv) = kv := by
      intro kv hkv
      have := beq_eq_false_iff_ne.mp (hm kv hkv)
      simp [this]
    rw [List.map_congr_left hid]
    simp
  · simp

theorem foldl_addInstance_present (res : InstanceResource) (ts : List Int) :
    ∀ (m : Registry) (p : ProtocolInstance),
      (∀ kv ∈ m, (kv.1 == res.node.str) = false) →
      addInstanceCalls (m ++ [(res.node.str, p)]) res ts =
        m ++ [(res.node.str,
          { p with lastReportMilli := ts.getLastD p.lastReportMilli })] := by
  induction ts with
  | nil => intro m p hm; simp [addInstanceCalls]
  | cons t ts ih =>
    intro m p hm
    have h1 : addInstanceCalls (m ++ [(res.node.str, p)]) res (t :: ts) =
        addInstanceCalls (addInstance (m ++ [(res.node.str, p)]) res true t)
          res ts := by
      simp [addInstanceCalls]
    rw [h1, addInstance_present m res t p hm, ih m (p.doReport t) hm]
    rw [List.getLastD_cons]
    rfl

theorem sorted_foldl_max (t0 : Int) (ts : List Int) :
    List.Sorted (· ≤ ·) (t0 :: ts) → ts.foldl max t0 = ts.getLastD t0 := by
  induction ts generalizing t0 with
  | nil => intro _; rfl
  | cons t1 ts ih =>
    intro hs
    have h01 : t0 ≤ t1 := (List.sorted_cons.mp hs).1 t1 (by simp)
    have hs' : List.Sorted (· ≤ ·) (t1 :: ts) := (List.sorted_cons.mp hs).2
    rw [List.foldl_cons, List.getLastD_cons, max_eq_right h01]
    exact ih t1 hs'

/-- C7: calling `addInstance(res, record=true)` at times `t0 :: ts` on a
registry in which the node key is absent yields exactly one entry under the
key; the first call inserts it (protocol and identity from `res`) and each
later call only bumps `lastReportMilli`, so the final `lastReportMilli` is
the last call time — the maximum of the call times when they are
chronological. -/
theorem addInstance_repeated_single_entry (res : InstanceResource)
    (m : Registry) (t0 : Int) (ts : List Int)
    (habs : m.lookup res.node.str = none) :
    addInstanceCalls m res (t0 :: ts) =
      m ++ [(res.node.str,
        { protocol := parseProtocol res.protocol
          insRes := res
          lastReportMilli := ts.getLastD t0
          checkSuccess := 0 })] ∧
    (addInstanceCalls m res (t0 :: ts)).countP
        (fun kv => kv.1 == res.node.str) = 1 ∧
    (addInstanceCalls m res (t0 :: ts)).lookup res.node.str =
      some { protocol := parseProtocol res.protocol
             insRes := res
             lastReportMilli := ts.getLastD t0
             checkSuccess := 0 } ∧
    (List.Sorted (· ≤ ·) (t0 :: ts) → ts.foldl max t0 = ts.getLastD t0) := by
  have hm := lookup_none_key_beq_false m res.node.str habs
  have hmain : addInstanceCalls m res (t0 :: ts) =
      m ++ [(res.node.str,
        { protocol := parseProtocol res.protocol
          insRes := res
          lastReportMilli := ts.getLastD t0
          checkSuccess := 0 })] := by
    have h1 : addInstanceCalls m res (t0 :: ts) =
        addInstanceCalls (addInstance m res true t0) res ts := by
      simp [addInstanceCalls]
    rw [h1, addInstance_absent m res t0 habs,
      foldl_addInstance_present res ts m _ hm]
  refine ⟨hmain, ?_, ?_, sorted_foldl_max t0 ts⟩
  · rw [hmain, List.countP_append]
    have hz : m.countP (fun kv => kv.1 == res.node.str) = 0 :=
      List.countP_eq_zero.mpr (fun kv hkv => by simp [hm kv hkv])
    simp [hz, List.countP_cons]
  · rw [hmain, lookup_append_of_none _ _ _ habs]
    simp [List.lookup]

/-- Witness for C7: three calls at times 5, 7, 9 on the empty registry. -/
theorem addInstance_repeated_single_entry_witness :
    addInstanceCalls [] sampleRes (5 :: [7, 9]) =
      [] ++ [(sampleRes.node.str,
        { protocol := parseProtocol sampleRes.protocol
          insRes := sampleRes
          lastReportMilli := [7, 9].getLastD 5
          checkSuccess := 0 })] ∧
    (addInstanceCalls [] sampleRes (5 :: [7, 9])).countP
        (fun kv => kv.1 == sampleRes.node.str) = 1 ∧
    (addInstanceCalls [] sampleRes (5 :: [7, 9])).lookup sampleRes.node.str =
      some { protocol := parseProtocol sampleRes.protocol
             insRes := sampleRes
             lastReportMilli := [7, 9].getLastD 5
             checkSuccess := 0 } ∧
    (List.Sorted (· ≤ ·) ((5 : Int) :: [7, 9]) →
      ([7, 9] : List Int).foldl max 5 = [7, 9].getLastD 5) :=
  addInstance_repeated_single_entry sampleRes [] 5 [7, 9] rfl

/-- C10: `getNodes` returns the current chain, the current seq and count,
and leaves behind an empty list with count 0 but the seq counter unchanged;
an `addStatus` after such a plain drain continues numbering from the
pre-drain seq (`(seq + 1) mod 2^32`) instead of restarting at 1. -/
theorem statusList_drain_frame (α : Type) (s : StatusList α) (d : α) (t : Nat) :
    (s.getNodes.1.1 = s.nodes ∧ s.getNodes.1.2.1 = s.seq ∧
      s.getNodes.1.2.2 = s.count) ∧
    (s.getNodes.2.nodes = [] ∧ s.getNodes.2.count = 0 ∧ s.getNodes.2.seq = s.seq) ∧
    (s.getNodes.2.addStatus d t).nodes =
      [⟨(s.seq + 1) % 2 ^ 32, t, d⟩] ∧
    (s.getNodes.2.addStatus d t).seq = (s.seq + 1) % 2 ^ 32 := by
  refine ⟨⟨rfl, rfl, rfl⟩, ⟨rfl, rfl, rfl⟩, ?_, rfl⟩
  simp [StatusList.getNodes, StatusList.addStatus]

/-- C1 (evaluating the code at the failing input): for a detector holding a
fully wildcard TCP rule and a TCP rule literally matching `prod/payments`,
`selectFaultDetectRules` returns the empty map — `sortFaultDetectRules`
copies the rules into a zero-length slice, so every rule is dropped and the
literal rule the spec selects is never produced. -/
theorem selectFaultDetectRules_empty_on_literal_and_wildcard :
    selectFaultDetectRules (fun _ _ => false) resProdPayments
      ⟨[ruleWildcardTCP, ruleLiteralTCP]⟩ = [] ∧
    sortFaultDetectRules [ruleWildcardTCP, ruleLiteralTCP] = [] :=
  ⟨rfl, rfl⟩

/-- With the copy repaired — sorting all of `srcRules`, which is what the
surrounding code and the spec describe — the same input yields the literal
rule for TCP: the literal sorts before the wildcard and is recorded first. -/
theorem selectFaultDetectRulesIntended_literal_wins :
    selectFaultDetectRulesIntended (fun _ _ => false) resProdPayments
      ⟨[ruleWildcardTCP, ruleLiteralTCP]⟩ = [("TCP", ruleLiteralTCP)] := by
  rfl

/-- C2 (evaluating the code at the failing input): probing the registry that
holds the instance `10.0.0.1:9000` under a rule with `port = 8080`, the
probe target carries the instance's own port 9000 — the rule's port never
reaches the built target. -/
theorem checkResource_ignores_rule_port :
    rulePort8080.port = 8080 ∧
    (checkResource .TCP rulePort8080 regOneInstance).map
      (fun c => (c.ins.host, c.ins.port)) = [("10.0.0.1", 9000)] :=
  ⟨rfl, rfl⟩

/-- C5: when the probe plugin's `DetectInstance` returns an error, `doCheck`
returns false — so the caller stores `checkSuccess = false` via
`setCheckResult` — and `circuitBreaker.Report` is not invoked (no
`ResourceStat` is emitted). -/
theorem doCheck_error_not_reported (hc : HealthCheckers) (resource : Resource)
    (ins : Instance) (protocol : FDProtocol) (rule : FaultDetectRule)
    (checker : HealthChecker) (e : String) (p : ProtocolInstance)
    (hfind : hc.lookup (goToLower protocol.protoString) = some checker)
    (herr : checker ins = .error e) :
    doCheck hc resource ins protocol rule = (false, none) ∧
    (p.setCheckResult
        (doCheck hc resource ins protocol rule).1).isCheckSuccess = false := by
  have h : doCheck hc resource ins protocol rule = (false, none) := by
    simp [doCheck, hfind, herr]
  refine ⟨h, ?_⟩
  rw [h]
  simp [ProtocolInstance.setCheckResult, ProtocolInstance.isCheckSuccess]

/-- Witness for C5: a TCP plugin that always fails with an I/O error. -/
theorem doCheck_error_not_reported_witness :
    doCheck [("tcp", fun _ => Except.error "io")] resProdPayments
        (newInstanceInProto sampleRes) .TCP rulePort8080 = (false, none) ∧
    (ProtocolInstance.setCheckResult ⟨.TCP, sampleRes, 0, 1⟩
        (doCheck [("tcp", fun _ => Except.error "io")] resProdPayments
          (newInstanceInProto sampleRes) .TCP rulePort8080).1).isCheckSuccess =
      false :=
  doCheck_error_not_reported [("tcp", fun _ => Except.error "io")]
    resProdPayments (newInstanceInProto sampleRes) .TCP rulePort8080
    (fun _ => Except.error "io") "io" ⟨.TCP, sampleRes, 0, 1⟩ rfl rfl

/-- C8 counterexample: under the TCP rule with `port = 8080`, the registry's
single HTTP instance IS probed — `checkResource` applies no protocol filter
in the positive-port branch, contradicting "an instance with protocol=HTTP
is never probed under a TCP rule". -/
theorem checkResource_probes_http_under_tcp_rule :
    (checkResource .TCP rulePort8080 regHTTPInstance).map
      (fun c => (c.ins.host, c.ins.port, c.protocol)) =
      [("10.0.0.2", 80, FDProtocol.HTTP)] := by
  rfl

theorem foldl_if_append {α γ : Type} (p : α → Bool) (f : α → γ) (l : List α) :
    ∀ acc : List γ,
      l.foldl (fun acc x => if p x then acc ++ [f x] else acc) acc =
        acc ++ (l.filter p).map f := by
  induction l with
  | nil => intro acc; simp
  | cons x xs ih =>
    intro acc
    cases hp : p x <;> simp [List.foldl_cons, hp, ih]

/-- C8 amended: when the rule does not override the port (`port = 0`),
`checkResource` probes exactly the registered instances whose protocol is
UNKNOWN or equal to the rule's protocol, in registry order (an UNKNOWN
instance is probed under any rule, an HTTP instance is skipped by a TCP
rule); when `port > 0` the protocol filter does not apply. -/
theorem checkResource_protocol_filter (protocol : FDProtocol)
    (rule : FaultDetectRule) (instances : Registry) (h : rule.port = 0) :
    checkResource protocol rule instances =
      (instances.filter (fun kv =>
        kv.2.protocol == FDProtocol.UNKNOWN || kv.2.protocol == protocol)).map
        (fun kv => ⟨newInstanceInProto kv.2.insRes, kv.2.protocol⟩) := by
  rw [checkResource, h]
  simp only [gt_iff_lt, lt_irrefl, if_false]
  rw [foldl_if_append]
  simp

/-- Witness for the C8 amendment: a zero-port TCP rule over the two-entry
registry probes exactly its TCP instance. -/
theorem checkResource_protocol_filter_witness :
    checkResource .TCP ruleLiteralTCP sampleRegistry =
      (sampleRegistry.filter (fun kv =>
        kv.2.protocol == FDProtocol.UNKNOWN ||
          kv.2.protocol == FDProtocol.TCP)).map
        (fun kv => ⟨newInstanceInProto kv.2.insRes, kv.2.protocol⟩) :=
  checkResource_protocol_filter .TCP ruleLiteralTCP sampleRegistry rfl

end Polaris
